import Mathlib

/-!
Verification of the K-Vault database layer (`src/db_manager.py`) against its
natural-language specification.

The store is shallowly embedded: SQLite tables become Lean lists of records,
the FTS5 full-text index becomes an explicit list of `(rowid, title, content)`
entries maintained by the same trigger logic the schema installs, and each
`DatabaseManager` method becomes a pure function on the `Store` state.
SQLite semantics that the code relies on are modelled explicitly where they
decide a claim: `UNIQUE` constraints treat `NULL` as distinct from every
value (so a `NULL` parent never participates in a uniqueness conflict),
`ON DELETE CASCADE` on `folders.parent_id` recursively deletes descendant
rows once `PRAGMA foreign_keys = ON`, and `ON DELETE SET NULL` on
`notes.folder_id` clears the folder reference of notes owned by any deleted
folder.  The FTS5 query language is modelled for the fragment the code can
produce: whitespace-separated bareword terms, optionally ending in `*`
(a trailing-wildcard term), matched case-insensitively via the `unicode61`
tokenizer's case folding (restricted here to ASCII).  The uppercase operator
keywords `AND`, `OR`, `NOT` are recognized as operators, never as terms: a
well-placed `AND` is the same conjunction FTS5 already applies to adjacent
terms, a misplaced keyword or a keyword followed by the appended `*` is a
genuine engine syntax error, and `OR`/`NOT` queries (boolean semantics no
claim exercises) lie outside the modeled fragment and take the error path.
Any other reserved syntax is a query-syntax error, which the engine raises
as an operational error.  Ranking (`ORDER BY rank`) is
abstracted: results are kept in index order, so theorems about result
membership carry a hypothesis bounding the number of hits by `limit`.
Timestamps (`created_at`/`updated_at`) are omitted: no claim below depends on
them, and the operations only touch them on rows they already modify.
-/

namespace KVault

/-- ASCII word characters, a simplification of the FTS5 `unicode61`
tokenizer's alphanumeric class. -/
def isWordChar (c : Char) : Bool :=
  ('a' ≤ c && c ≤ 'z') || ('A' ≤ c && c ≤ 'Z') || ('0' ≤ c && c ≤ '9')

/-- Whitespace, as Python's `str.strip` and the FTS5 query parser see it. -/
def isWs (c : Char) : Bool :=
  c = ' ' || c = '\t' || c = '\r' || c = '\n'

/-- ASCII case folding: the fragment of the `unicode61` tokenizer's case
folding that covers the ASCII word characters above. -/
def asciiLowerChar (c : Char) : Char :=
  if 'A' ≤ c && c ≤ 'Z' then Char.ofNat (c.toNat + 32) else c

def foldAscii (s : String) : String := ⟨s.data.map asciiLowerChar⟩

/-- Tokenizer of the FTS5 index: maximal runs of word characters, stored
case-folded — the `unicode61` tokenizer folds case, so FTS5 matching is
case-insensitive. -/
def tokenizeAux : List Char → List Char → List String
  | [], acc => if acc = [] then [] else [⟨acc.reverse⟩]
  | c :: cs, acc =>
    if isWordChar c then tokenizeAux cs (asciiLowerChar c :: acc)
    else if acc = [] then tokenizeAux cs [] else ⟨acc.reverse⟩ :: tokenizeAux cs []

def tokenize (s : String) : List String := tokenizeAux s.data []

/-- A term of an FTS5 MATCH query, held case-folded exactly as the query
tokenizer folds it: an exact bareword, or a bareword with a trailing `*`
wildcard that matches every token it is the start of. -/
inductive FtsTerm where
  | word (w : String)
  | star (w : String)
deriving DecidableEq

/-- The reserved FTS5 operator keywords.  The engine recognizes exactly the
uppercase spellings `AND`, `OR`, `NOT` as boolean operators; `and` in lower
case is an ordinary term. -/
def isFtsKeyword (cs : List Char) : Bool :=
  cs == "AND".data || cs == "OR".data || cs == "NOT".data

/-- One whitespace-separated chunk of a MATCH query: a plain or trailing-`*`
bareword term (case-folded on parse, like the engine's query tokenizer), or
one of the operator keywords.  Anything else — reserved punctuation, a bare
`*`, a keyword followed by `*` (the lexer emits the keyword and the star
separately, a syntax error) — fails to parse. -/
inductive FtsChunk where
  | term (t : FtsTerm)
  | opAnd
  | opOr
  | opNot
deriving DecidableEq

def parseChunk (cs : List Char) : Option FtsChunk :=
  if cs == "AND".data then some .opAnd
  else if cs == "OR".data then some .opOr
  else if cs == "NOT".data then some .opNot
  else if cs.getLast? = some '*' then
    let w := cs.dropLast
    if w ≠ [] ∧ w.all isWordChar ∧ isFtsKeyword w = false then
      some (.term (.star (foldAscii ⟨w⟩)))
    else none
  else if cs ≠ [] ∧ cs.all isWordChar then some (.term (.word (foldAscii ⟨cs⟩)))
  else none

/-- Split a query into whitespace-separated chunks. -/
def splitWsAux : List Char → List Char → List (List Char)
  | [], acc => if acc = [] then [] else [acc.reverse]
  | c :: cs, acc =>
    if isWs c then
      if acc = [] then splitWsAux cs [] else acc.reverse :: splitWsAux cs []
    else splitWsAux cs (c :: acc)

/-- Fold the chunks after a leading term into a conjunction of terms.  In
FTS5 adjacent terms are joined by an implicit AND, so a well-placed explicit
`AND` keyword means exactly the same conjunction and is absorbed.  A
misplaced `AND` (leading, trailing or doubled) is an engine syntax error.
`OR` and `NOT` carry boolean semantics outside this conjunctive fragment —
no query reachable from the claims uses them — and are mapped to the error
result as the boundary of the modeled fragment. -/
def chunksAux : List FtsChunk → Option (List FtsTerm)
  | [] => some []
  | .term t :: rest => (chunksAux rest).map (fun l => t :: l)
  | .opAnd :: .term t :: rest => (chunksAux rest).map (fun l => t :: l)
  | _ => none

/-- Parse a full MATCH query into the conjunction of its terms; an empty
query, or one starting with an operator keyword, is an FTS5 syntax error. -/
def parseFtsQuery (q : String) : Option (List FtsTerm) :=
  match (splitWsAux q.data []).mapM parseChunk with
  | none => none
  | some (.term t :: rest) => (chunksAux rest).map (fun l => t :: l)
  | some _ => none

/-- Does one query term match a tokenized document? -/
def termMatches (tokens : List String) : FtsTerm → Bool
  | .word w => tokens.contains w
  | .star w => tokens.any (fun t => w.data.isPrefixOf t.data)

structure Folder where
  id : Nat
  name : String
  parentId : Option Nat
deriving DecidableEq

structure Note where
  id : Nat
  title : String
  content : String
  folderId : Option Nat
deriving DecidableEq

/-- One row of the `notes_fts` index: denormalized title and content for a
`notes` rowid, maintained by the three synchronization triggers. -/
structure FtsEntry where
  rowid : Nat
  title : String
  content : String
deriving DecidableEq

/-- A MATCH of the `notes_fts` row against a parsed query: every term must
match the tokens of the entry's title or content. -/
def rowMatches (terms : List FtsTerm) (e : FtsEntry) : Bool :=
  terms.all (termMatches (tokenize e.title ++ tokenize e.content))

/-- The persistent store: the `folders` and `notes` tables, the `notes_fts`
index, and the AUTOINCREMENT counters of the two tables. -/
structure Store where
  folders : List Folder
  notes : List Note
  fts : List FtsEntry
  nextFolderId : Nat
  nextNoteId : Nat
deriving DecidableEq

/-- Errors surfaced by the sqlite3 driver: `constraintViolation` for
IntegrityError (CHECK, UNIQUE, FOREIGN KEY), `operationalError` for
OperationalError (in particular FTS5 query-syntax errors). -/
inductive DbError where
  | constraintViolation
  | operationalError
deriving DecidableEq

deriving instance DecidableEq for Except

/-- SQLite UNIQUE-constraint comparison of two nullable key columns: `NULL`
is distinct from every value including `NULL`, so only two equal non-NULL
keys collide. -/
def sameKeyOpt (a b : Option Nat) : Bool :=
  match a, b with
  | some x, some y => x == y
  | _, _ => false

/-- Is a nullable folder reference one of the ids in `del`? -/
def optMem (a : Option Nat) (del : List Nat) : Bool :=
  match a with
  | some g => decide (g ∈ del)
  | none => false

/-- Does an optional folder reference satisfy the foreign key (absent, or an
existing folder id)? -/
def folderRefOk (s : Store) (r : Option Nat) : Bool :=
  match r with
  | none => true
  | some p => s.folders.any (fun f => f.id == p)

/-- Model of `DatabaseManager.get_folder`: `SELECT * FROM folders WHERE id = ?`. -/
def get_folder (s : Store) (folderId : Nat) : Option Folder :=
  s.folders.find? (fun f => f.id == folderId)

/-- Model of `DatabaseManager.get_note`: `SELECT * FROM notes WHERE id = ?`. -/
def get_note (s : Store) (noteId : Nat) : Option Note :=
  s.notes.find? (fun n => n.id == noteId)

/-- Model of `DatabaseManager.create_folder`: `INSERT INTO folders (name,
parent_id) VALUES (?, ?)`.  SQLite enforces `CHECK (name <> '')`, the
foreign key on `parent_id`, and `UNIQUE(parent_id, name)`; per SQLite
semantics a `NULL` `parent_id` is distinct from every value, so only rows
with the same non-NULL parent can conflict. -/
def create_folder (s : Store) (name : String) (parentId : Option Nat) :
    Except DbError (Store × Nat) :=
  if name = "" then .error .constraintViolation
  else if !(folderRefOk s parentId) then .error .constraintViolation
  else if s.folders.any (fun f =>
      sameKeyOpt f.parentId parentId && f.name == name) then
    .error .constraintViolation
  else
    .ok ({ s with
            folders := s.folders ++ [⟨s.nextFolderId, name, parentId⟩],
            nextFolderId := s.nextFolderId + 1 }, s.nextFolderId)

/-- Model of `DatabaseManager.create_note`: `INSERT INTO notes (title,
content, folder_id) VALUES (?, ?, ?)` followed by the `notes_ai` trigger,
which inserts `(new.rowid, new.title, new.content)` into `notes_fts`.
Constraints as for folders, with `UNIQUE(folder_id, title)`. -/
def create_note (s : Store) (title content : String) (folderId : Option Nat) :
    Except DbError (Store × Nat) :=
  if title = "" then .error .constraintViolation
  else if !(folderRefOk s folderId) then .error .constraintViolation
  else if s.notes.any (fun o =>
      sameKeyOpt o.folderId folderId && o.title == title) then
    .error .constraintViolation
  else
    .ok ({ s with
            notes := s.notes ++ [⟨s.nextNoteId, title, content, folderId⟩],
            fts := s.fts ++ [⟨s.nextNoteId, title, content⟩],
            nextNoteId := s.nextNoteId + 1 }, s.nextNoteId)

/-- Model of `DatabaseManager.update_note`: `UPDATE notes SET title = ?,
content = ?, folder_id = ? WHERE id = ?`.  When no row matches the UPDATE is
a silent no-op; when a row matches, constraints are re-checked and the
`notes_au` trigger deletes then reinserts the row's `notes_fts` entry. -/
def update_note (s : Store) (note : Note) : Except DbError Store :=
  if s.notes.any (fun n => n.id == note.id) then
    if note.title = "" then .error .constraintViolation
    else if !(folderRefOk s note.folderId) then .error .constraintViolation
    else if s.notes.any (fun o =>
        o.id != note.id &&
        (sameKeyOpt o.folderId note.folderId && o.title == note.title)) then
      .error .constraintViolation
    else
      .ok { s with
            notes := s.notes.map (fun n =>
              if n.id == note.id then
                { n with title := note.title, content := note.content,
                         folderId := note.folderId }
              else n),
            fts := s.fts.filter (fun e => e.rowid != note.id) ++
                   [⟨note.id, note.title, note.content⟩] }
  else .ok s

/-- Model of `DatabaseManager.delete_note`: `DELETE FROM notes WHERE id = ?`;
the `notes_ad` trigger removes the matching `notes_fts` entry for each row
actually deleted (no row, no trigger). -/
def delete_note (s : Store) (noteId : Nat) : Store :=
  { s with
    notes := s.notes.filter (fun n => n.id != noteId),
    fts := if s.notes.any (fun n => n.id == noteId) then
             s.fts.filter (fun e => e.rowid != noteId)
           else s.fts }

/-- One round of the `ON DELETE CASCADE` foreign-key action: a folder row is
newly deleted when its parent is already in the deleted set. -/
def cascadeNew (del : List Nat) (f : Folder) : Bool :=
  optMem f.parentId del && !(decide (f.id ∈ del))

def cascadeStep (folders : List Folder) (del : List Nat) : List Nat :=
  del ++ (folders.filter (cascadeNew del)).map (fun f => f.id)

def cascadeIter (folders : List Folder) : Nat → List Nat → List Nat
  | 0, del => del
  | n + 1, del => cascadeIter folders n (cascadeStep folders del)

/-- The set of folder ids removed by SQLite's recursive `ON DELETE CASCADE`
action, starting from the rows matched by the DELETE statement:
`folders.length` rounds reach the fixpoint. -/
def cascadeClosure (folders : List Folder) (seed : List Nat) : List Nat :=
  cascadeIter folders folders.length seed

/-- Model of `DatabaseManager.delete_folder`.  The statement is
`DELETE FROM folders WHERE id = ? OR parent_id = ?` when recursive and
`DELETE FROM folders WHERE id = ?` otherwise; with `PRAGMA foreign_keys = ON`
the `ON DELETE CASCADE` on `folders.parent_id` then removes every descendant
of a deleted row, and the `ON DELETE SET NULL` on `notes.folder_id` clears
the folder reference of every note owned by a deleted folder.  The
`notes_au` trigger fired by the SET NULL action deletes and reinserts an
identical `notes_fts` entry, so the index is modelled unchanged. -/
def delete_folder (s : Store) (folderId : Nat) (recursive : Bool) : Store :=
  let seed :=
    if recursive then
      (s.folders.filter (fun f =>
        f.id == folderId || f.parentId == some folderId)).map (fun f => f.id)
    else
      (s.folders.filter (fun f => f.id == folderId)).map (fun f => f.id)
  let del := cascadeClosure s.folders seed
  { s with
    folders := s.folders.filter (fun f => !(decide (f.id ∈ del))),
    notes := s.notes.map (fun n =>
      if optMem n.folderId del then { n with folderId := none } else n) }

/-- Model of `DatabaseManager.move_note_to_folder`: `UPDATE notes SET
folder_id = ? WHERE id = ?`.  No matching row is a silent no-op; a matching
row re-checks the foreign key and `UNIQUE(folder_id, title)`, and the
`notes_au` trigger reindexes the (textually unchanged) row. -/
def move_note_to_folder (s : Store) (noteId : Nat) (targetFolderId : Option Nat) :
    Except DbError Store :=
  match s.notes.find? (fun n => n.id == noteId) with
  | none => .ok s
  | some n =>
    if !(folderRefOk s targetFolderId) then .error .constraintViolation
    else if s.notes.any (fun o =>
        o.id != noteId &&
        (sameKeyOpt o.folderId targetFolderId && o.title == n.title)) then
      .error .constraintViolation
    else
      .ok { s with
            notes := s.notes.map (fun m =>
              if m.id == noteId then { m with folderId := targetFolderId } else m),
            fts := s.fts.filter (fun e => e.rowid != noteId) ++
                   [⟨noteId, n.title, n.content⟩] }

/-- Model of `DatabaseManager.move_folder`: `UPDATE folders SET parent_id = ?
WHERE id = ?`.  No matching row is a silent no-op; a matching row re-checks
the foreign key and `UNIQUE(parent_id, name)` (no cycle check). -/
def move_folder (s : Store) (folderId : Nat) (targetParentId : Option Nat) :
    Except DbError Store :=
  match s.folders.find? (fun f => f.id == folderId) with
  | none => .ok s
  | some f =>
    if !(folderRefOk s targetParentId) then .error .constraintViolation
    else if s.folders.any (fun g =>
        g.id != folderId &&
        (sameKeyOpt g.parentId targetParentId && g.name == f.name)) then
      .error .constraintViolation
    else
      .ok { s with
            folders := s.folders.map (fun g =>
              if g.id == folderId then { g with parentId := targetParentId } else g) }

/-- Model of `DatabaseManager.search_notes`.  `if not query.strip(): return []`
is the guard for queries of whitespace only; otherwise the code runs
`... WHERE notes_fts MATCH ? ... LIMIT ?` with the bound text `query + "*"`,
joining matching index rows back to `notes` on the rowid.  A query-syntax
error from FTS5 is not caught and propagates as an OperationalError.
`ORDER BY rank` is abstracted: results stay in index order. -/
def search_notes (s : Store) (query : String) (limit : Nat) :
    Except DbError (List Note) :=
  if query.data.all isWs then .ok []
  else
    match parseFtsQuery (query ++ "*") with
    | none => .error .operationalError
    | some terms =>
      let hits := s.fts.filter (fun e => rowMatches terms e)
      let joined := hits.filterMap (fun e => s.notes.find? (fun n => n.id == e.rowid))
      .ok (joined.take limit)

/-- Model of `DatabaseManager.get_note_parents`, fuel-bounded: the Python
loop `while folder_id:` follows parent references; `None` (and Python's
falsy `0`) stops the walk.  `none` models the two failure modes of the
source: a missing note or folder (an `AttributeError` on `None`) and a
parent cycle (the loop never terminates; the fuel `folders.length + 1`
is enough for every acyclic chain of existing folders). -/
def get_note_parentsAux (s : Store) : Nat → Option Nat → Option (List Nat)
  | _, none => some []
  | 0, some fid => if fid = 0 then some [] else none
  | fuel + 1, some fid =>
    if fid = 0 then some []
    else
      match get_folder s fid with
      | none => none
      | some f => (get_note_parentsAux s fuel f.parentId).map (fun l => fid :: l)

def get_note_parents (s : Store) (noteId : Nat) : Option (List Nat) :=
  match get_note s noteId with
  | none => none
  | some n => get_note_parentsAux s (s.folders.length + 1) n.folderId

/-- Model of `DatabaseManager.init_schema` as a function of the stored
contents.  `CREATE TABLE IF NOT EXISTS` for folders and notes and the
`CREATE INDEX IF NOT EXISTS` statements leave existing rows untouched;
`DROP TABLE IF EXISTS notes_fts` discards the whole search index and
`CREATE VIRTUAL TABLE IF NOT EXISTS notes_fts` recreates it empty (an
external-content FTS5 table starts with no index entries); the triggers are
dropped and recreated and hold no stored content.  The script runs without
error on an already-initialized store. -/
def init_schema (s : Store) : Store := { s with fts := [] }

/-- Model of a database file as the connection layer sees it: `readable` is
whether statements can be prepared and run at all, `integrityOk` is whether
`PRAGMA integrity_check` would report `ok`. -/
structure SqliteFile where
  readable : Bool
  integrityOk : Bool
deriving DecidableEq

/-- Modelled from the platform: executing `PRAGMA integrity_check` raises
only when the file cannot be read as a database at all; on a readable but
corrupt database it succeeds and returns rows describing the damage
(`["ok"]` when the database is healthy).  The result rows are the check's
verdict. -/
def pragmaIntegrityCheck (f : SqliteFile) : Option (List String) :=
  if f.readable then
    some (if f.integrityOk then ["ok"] else ["database disk image is malformed"])
  else none

/-- Model of `DatabaseManager.integrity_check`: the code executes the pragma
inside `try/except` and returns `True` whenever execution itself did not
raise — it never reads the returned rows. -/
def integrity_check (f : SqliteFile) : Bool :=
  match pragmaIntegrityCheck f with
  | some _ => true
  | none => false

/-- Model of `DatabaseManager.connect`: after the PRAGMA setup, raise
`Exception("Database corrupted - will be recreated")` when
`integrity_check` returns `False`. -/
def connect (f : SqliteFile) : Except String Unit :=
  if integrity_check f then .ok () else .error "Database corrupted - will be recreated"

/-- Membership of a folder id in the subtree rooted at `root`, through
parent references of existing folder rows (the rows SQLite's cascade can
reach). -/
inductive InSubtree (folders : List Folder) (root : Nat) : Nat → Prop
  | root : InSubtree folders root root
  | child (f : Folder) (p : Nat) (hf : f ∈ folders) (hp : f.parentId = some p)
      (hin : InSubtree folders root p) : InSubtree folders root f.id

/-- The breadcrumb chain the spec describes for `parentChain`: the note's
folder id, then each successive ancestor, ending at a folder with no
parent. -/
inductive IsParentChain (s : Store) : Option Nat → List Nat → Prop
  | nil : IsParentChain s none []
  | cons (fid : Nat) (f : Folder) (rest : List Nat)
      (hf : get_folder s fid = some f) (hrest : IsParentChain s f.parentId rest) :
      IsParentChain s (some fid) (fid :: rest)

end KVault

namespace KVault

/-- A bareword: the shape of a query a user types when searching for (part
of) a single word, and the shape of every token the index produces. -/
def WordStr (p : String) : Prop := p.data ≠ [] ∧ p.data.all isWordChar = true

instance wordStrDecidable (p : String) : Decidable (WordStr p) := by
  unfold WordStr
  infer_instance

/-- A plain query word: non-empty, word characters only, and not one of the
reserved operator keywords — exactly the chunks the FTS5 lexer emits as a
single ordinary term. -/
def PlainWord (p : String) : Prop := WordStr p ∧ isFtsKeyword p.data = false

instance plainWordDecidable (p : String) : Decidable (PlainWord p) := by
  unfold PlainWord
  infer_instance

/-- Join words with single spaces, to describe multi-term queries. -/
def joinWords : List String → String
  | [] => ""
  | [w] => w
  | w :: rest => w ++ " " ++ joinWords rest

/-- Referential integrity of folder parents: every non-NULL `parent_id`
names an existing folder row (what `PRAGMA foreign_keys = ON` enforces). -/
def folderFkOk (s : Store) : Bool :=
  s.folders.all (fun f => f.parentId.elim true (fun p => s.folders.any (fun g => g.id == p)))

/-- Referential integrity of note folder references. -/
def noteFkOk (s : Store) : Bool :=
  s.notes.all (fun m => m.folderId.elim true (fun p => s.folders.any (fun g => g.id == p)))

/-- SQLite AUTOINCREMENT row ids start at 1, so no folder row has id 0 (the
Python loop treats 0 as falsy, like None). -/
def folderIdsNonzero (s : Store) : Bool :=
  s.folders.all (fun f => f.id != 0)

/-- A ranking certificate for acyclicity of the folder-parent relation:
every child's rank exceeds its parent's. -/
def rankOk (s : Store) (rank : Nat → Nat) : Bool :=
  s.folders.all (fun f => f.parentId.elim true (fun p => decide (rank p < rank f.id)))

/-- The ranking stays within the number of folder rows (always arrangeable
for an acyclic finite store, e.g. by taking depth). -/
def rankBounded (s : Store) (rank : Nat → Nat) : Bool :=
  s.folders.all (fun f => decide (rank f.id ≤ s.folders.length))

theorem wordChar_not_ws {c : Char} (h : isWordChar c = true) : isWs c = false := by
  simp only [isWordChar, Bool.or_eq_true, Bool.and_eq_true, decide_eq_true_eq] at h
  simp only [isWs, Bool.or_eq_false_iff, decide_eq_false_iff_not]
  refine ⟨⟨⟨?_, ?_⟩, ?_⟩, ?_⟩ <;> rintro rfl <;> revert h <;> decide

theorem star_not_ws : isWs '*' = false := by decide

theorem star_not_wordChar : isWordChar '*' = false := by decide

theorem all_ws_false_of_word {p : String} (hw : WordStr p) :
    p.data.all isWs = false := by
  obtain ⟨hne, hall⟩ := hw
  cases hd : p.data with
  | nil => exact absurd hd hne
  | cons c cs =>
    rw [hd] at hall
    simp only [List.all_cons, Bool.and_eq_true] at hall
    simp [List.all_cons, wordChar_not_ws hall.1]

theorem splitWsAux_chunk {cs : List Char} (h : ∀ c ∈ cs, isWs c = false) :
    ∀ ds acc, splitWsAux (cs ++ ds) acc = splitWsAux ds (cs.reverse ++ acc) := by
  induction cs with
  | nil => intro ds acc; simp
  | cons c cs ih =>
    intro ds acc
    have hc : isWs c = false := h c (List.mem_cons_self c cs)
    simp only [List.cons_append, splitWsAux, hc, Bool.false_eq_true, if_false,
      List.append_eq]
    rw [ih (fun x hx => h x (List.mem_cons_of_mem c hx)) ds (c :: acc)]
    simp

theorem splitWsAux_nil (acc : List Char) :
    splitWsAux [] acc = if acc = [] then [] else [acc.reverse] := rfl

theorem splitWsAux_ws_cons {c : Char} (hc : isWs c = true) (cs acc : List Char) :
    splitWsAux (c :: cs) acc =
      if acc = [] then splitWsAux cs [] else acc.reverse :: splitWsAux cs [] := by
  simp [splitWsAux, hc]

theorem word_all_not_ws {p : String} (hw : WordStr p) :
    ∀ c ∈ p.data, isWs c = false := by
  intro c hc
  exact wordChar_not_ws (by
    have := hw.2
    rw [List.all_eq_true] at this
    exact this c hc)

theorem splitWs_single_star {p : String} (hw : WordStr p) :
    splitWsAux (p.data ++ ['*']) [] = [p.data ++ ['*']] := by
  rw [splitWsAux_chunk (word_all_not_ws hw) ['*'] []]
  simp only [List.append_nil, splitWsAux, star_not_ws, Bool.false_eq_true, if_false]
  have hne : ('*' :: p.data.reverse) ≠ [] := by simp
  simp [splitWsAux_nil]

theorem parseChunk_star {w : List Char} (hne : w ≠ []) (hall : w.all isWordChar = true)
    (hkw : isFtsKeyword w = false) :
    parseChunk (w ++ ['*']) = some (.term (.star (foldAscii ⟨w⟩))) := by
  have hlast : (w ++ ['*']).getLast? = some '*' := by
    rw [List.getLast?_concat]
  have hdrop : (w ++ ['*']).dropLast = w := by
    rw [List.dropLast_concat]
  have hk1 : (w ++ ['*'] == "AND".data) = false := by
    apply beq_eq_false_iff_ne.mpr
    intro h
    rw [h] at hlast
    exact absurd hlast (by decide)
  have hk2 : (w ++ ['*'] == "OR".data) = false := by
    apply beq_eq_false_iff_ne.mpr
    intro h
    rw [h] at hlast
    exact absurd hlast (by decide)
  have hk3 : (w ++ ['*'] == "NOT".data) = false := by
    apply beq_eq_false_iff_ne.mpr
    intro h
    rw [h] at hlast
    exact absurd hlast (by decide)
  simp [parseChunk, hk1, hk2, hk3, hlast, hdrop, hne, hall, hkw]

theorem parseChunk_word {w : List Char} (hne : w ≠ []) (hall : w.all isWordChar = true)
    (hkw : isFtsKeyword w = false) :
    parseChunk w = some (.term (.word (foldAscii ⟨w⟩))) := by
  have hkw' := hkw
  simp only [isFtsKeyword, Bool.or_eq_false_iff] at hkw'
  have hlast : w.getLast? ≠ some '*' := by
    intro hcon
    rw [List.getLast?_eq_getLast w hne, Option.some.injEq] at hcon
    have hmem : '*' ∈ w := hcon ▸ List.getLast_mem hne
    have := List.all_eq_true.mp hall '*' hmem
    rw [star_not_wordChar] at this
    exact Bool.false_ne_true this
  simp [parseChunk, hkw'.1.1, hkw'.1.2, hkw'.2, hlast, hne, hall]

theorem chunksAux_all_terms (ts : List FtsTerm) :
    chunksAux (ts.map FtsChunk.term) = some ts := by
  induction ts with
  | nil => rfl
  | cons t ts ih =>
    simp only [List.map_cons, chunksAux, ih, Option.map_some']

theorem parseFtsQuery_of_chunks (q : String) (l : List FtsTerm) (hne : l ≠ [])
    (h : List.mapM parseChunk (splitWsAux q.data []) = some (l.map FtsChunk.term)) :
    parseFtsQuery q = some l := by
  unfold parseFtsQuery
  rw [h]
  cases l with
  | nil => exact absurd rfl hne
  | cons t0 ts =>
    simp only [List.map_cons]
    show (chunksAux (ts.map FtsChunk.term)).map (fun x => t0 :: x) = some (t0 :: ts)
    rw [chunksAux_all_terms]
    rfl

theorem string_data_mk (l : List Char) : (String.mk l).data = l := rfl

theorem mk_data_eq (p : String) : (⟨p.data⟩ : String) = p := rfl

theorem parse_single_star {p : String} (hw : WordStr p)
    (hkw : isFtsKeyword p.data = false) :
    parseFtsQuery (p ++ "*") = some [.star (foldAscii p)] := by
  have hdata : (p ++ "*").data = p.data ++ ['*'] := by
    simp [String.data_append]
  have hchunk := parseChunk_star hw.1 hw.2 hkw
  rw [mk_data_eq p] at hchunk
  apply parseFtsQuery_of_chunks
  · simp
  · rw [hdata, splitWs_single_star hw]
    simp only [List.mapM_cons, List.mapM_nil, hchunk, List.map_cons, List.map_nil]
    rfl


theorem option_ne_none_exists {o : Option Nat} (h : o ≠ none) : ∃ p, o = some p := by
  cases o with
  | none => exact absurd rfl h
  | some p => exact ⟨p, rfl⟩

/-- C2 amended: `create_folder` fails with a constraint violation whenever the
name is empty or a sibling with the same name exists under the same
**non-null** parent; SQLite's `UNIQUE` treats `NULL` parents as distinct, so
root folders are exempt from the uniqueness rule. -/
theorem create_folder_rejects_duplicates_and_empty (s : Store) (name : String)
    (parentId : Option Nat)
    (h : name = "" ∨
      ∃ f ∈ s.folders, f.parentId = parentId ∧ parentId ≠ none ∧ f.name = name) :
    create_folder s name parentId = .error .constraintViolation := by
  unfold create_folder
  split_ifs with h1 h2 h3
  · rfl
  · rfl
  · rfl
  · exfalso
    rcases h with hname | ⟨f, hf, hpar, hne, hname⟩
    · exact h1 hname
    · obtain ⟨p, hp⟩ := option_ne_none_exists hne
      subst hp
      apply h3
      refine List.any_eq_true.mpr ⟨f, hf, ?_⟩
      rw [hpar, hname]
      simp [sameKeyOpt]

/-- C2 witness: a folder named "Docs" already exists under folder 1, so
creating another "Docs" under folder 1 is rejected. -/
theorem create_folder_rejects_duplicates_and_empty_witness :
    create_folder ⟨[⟨1, "Root", none⟩, ⟨2, "Docs", some 1⟩], [], [], 3, 1⟩
      "Docs" (some 1) = .error .constraintViolation :=
  create_folder_rejects_duplicates_and_empty _ _ _
    (Or.inr ⟨⟨2, "Docs", some 1⟩, by decide, rfl, by decide, rfl⟩)

/-- C2 counterexample: two root folders (NULL parent) may share a name.  With
a root folder "A" already present, `create_folder "A" none` succeeds and
creates a second root folder "A", so the claim's root-folder case fails. -/
theorem create_folder_duplicate_root_allowed :
    create_folder ⟨[⟨1, "A", none⟩], [], [], 2, 1⟩ "A" none =
      .ok (⟨[⟨1, "A", none⟩, ⟨2, "A", none⟩], [], [], 3, 1⟩, 2) := by rfl

/-- C3 amended: a whitespace-only (or empty) query short-circuits to an empty
result list, but a query FTS5 cannot parse makes `search_notes` raise the
engine's OperationalError to its caller — nothing in `search_notes` catches
it. -/
theorem search_notes_error_policy :
    (∀ (s : Store) (q : String) (limit : Nat),
        q.data.all isWs = true → search_notes s q limit = .ok []) ∧
    (∀ (s : Store) (limit : Nat),
        search_notes s "(" limit = .error .operationalError) := by
  constructor
  · intro s q limit h
    simp [search_notes, h]
  · intro s limit
    have h1 : "(".data.all isWs = false := by decide
    have h2 : parseFtsQuery ("(" ++ "*") = none := by decide
    simp only [search_notes, h1, Bool.false_eq_true, if_false]
    rw [h2]

/-- C3 witness: the whitespace-query branch at a concrete store. -/
theorem search_notes_error_policy_witness :
    search_notes ⟨[], [], [], 1, 1⟩ "   " 3 = .ok [] :=
  search_notes_error_policy.1 _ _ _ (by decide)

/-- C3 counterexample: the claim says an unparseable query returns an empty
result set; the code instead propagates the FTS5 syntax error. -/
theorem search_notes_propagates_syntax_error :
    search_notes ⟨[], [], [], 1, 1⟩ "(" 50 = .error .operationalError := by
  decide

/-- C5 amended: a second `init_schema` run raises no error and leaves the
folders and notes tables untouched, but it always drops and recreates the
search index, emptying its entries (they stay lost until notes are written
again); the function is idempotent only in the sense that a third run changes
nothing beyond what the second already did. -/
theorem init_schema_effect (s : Store) :
    (init_schema s).folders = s.folders ∧ (init_schema s).notes = s.notes ∧
    (init_schema s).fts = [] ∧ init_schema (init_schema s) = init_schema s :=
  ⟨rfl, rfl, rfl, rfl⟩

/-- C5 counterexample: on a store whose index is in sync, rerunning
`init_schema` is not a no-op — the note stops being searchable because
`DROP TABLE IF EXISTS notes_fts` discards the index entries. -/
theorem init_schema_drops_search_index :
    search_notes ⟨[], [⟨1, "Alpha", "beta content", none⟩],
        [⟨1, "Alpha", "beta content"⟩], 1, 2⟩ "bet" 50 =
      .ok [⟨1, "Alpha", "beta content", none⟩] ∧
    init_schema ⟨[], [⟨1, "Alpha", "beta content", none⟩],
        [⟨1, "Alpha", "beta content"⟩], 1, 2⟩ ≠
      ⟨[], [⟨1, "Alpha", "beta content", none⟩],
        [⟨1, "Alpha", "beta content"⟩], 1, 2⟩ ∧
    search_notes (init_schema ⟨[], [⟨1, "Alpha", "beta content", none⟩],
        [⟨1, "Alpha", "beta content"⟩], 1, 2⟩) "bet" 50 = .ok [] := by
  refine ⟨by decide, by decide, by decide⟩

/-- C8: the code never reads the rows `PRAGMA integrity_check` returns, so a
readable-but-corrupt database (the pragma reports damage without raising)
passes `integrity_check` and `connect` opens it silently — the store does
not fail loudly when corrupt. -/
theorem connect_opens_corrupt_store :
    pragmaIntegrityCheck ⟨true, false⟩ = some ["database disk image is malformed"] ∧
    integrity_check ⟨true, false⟩ = true ∧
    connect ⟨true, false⟩ = .ok () :=
  ⟨rfl, rfl, rfl⟩

/-- C10: every mutating operation aimed at an id that no row carries is a
silent no-op: the UPDATE/DELETE statements match no row, no constraint is
checked, no trigger fires, and the store is returned unchanged. -/
theorem missing_id_mutations_are_noops (s : Store) (note : Note)
    (noteId folderId : Nat) (t tp : Option Nat)
    (hnote : ∀ n ∈ s.notes, n.id ≠ note.id)
    (hnid : ∀ n ∈ s.notes, n.id ≠ noteId)
    (hfid : ∀ f ∈ s.folders, f.id ≠ folderId) :
    update_note s note = .ok s ∧
    delete_note s noteId = s ∧
    move_note_to_folder s noteId t = .ok s ∧
    move_folder s folderId tp = .ok s := by
  have h1 : s.notes.any (fun n => n.id == note.id) = false := by
    rw [List.any_eq_false]
    intro n hn
    simpa using hnote n hn
  have h2 : s.notes.any (fun n => n.id == noteId) = false := by
    rw [List.any_eq_false]
    intro n hn
    simpa using hnid n hn
  have h3 : s.notes.find? (fun n => n.id == noteId) = none := by
    rw [List.find?_eq_none]
    intro n hn
    simpa using hnid n hn
  have h4 : s.folders.find? (fun f => f.id == folderId) = none := by
    rw [List.find?_eq_none]
    intro f hf
    simpa using hfid f hf
  refine ⟨?_, ?_, ?_, ?_⟩
  · simp [update_note, h1]
  · have hfilter : s.notes.filter (fun n => n.id != noteId) = s.notes := by
      rw [List.filter_eq_self]
      intro n hn
      simpa using hnid n hn
    simp [delete_note, h2, hfilter]
  · simp [move_note_to_folder, h3]
  · simp [move_folder, h4]

/-- C10 witness: updating, deleting, and moving id 9 in a store whose only
note has id 2 and only folder has id 1 all leave the store untouched. -/
theorem missing_id_mutations_are_noops_witness :
    update_note ⟨[⟨1, "a", none⟩], [⟨2, "t", "c", none⟩], [⟨2, "t", "c"⟩], 2, 3⟩
        ⟨9, "x", "y", none⟩ =
      .ok ⟨[⟨1, "a", none⟩], [⟨2, "t", "c", none⟩], [⟨2, "t", "c"⟩], 2, 3⟩ ∧
    delete_note ⟨[⟨1, "a", none⟩], [⟨2, "t", "c", none⟩], [⟨2, "t", "c"⟩], 2, 3⟩ 9 =
      ⟨[⟨1, "a", none⟩], [⟨2, "t", "c", none⟩], [⟨2, "t", "c"⟩], 2, 3⟩ ∧
    move_note_to_folder
        ⟨[⟨1, "a", none⟩], [⟨2, "t", "c", none⟩], [⟨2, "t", "c"⟩], 2, 3⟩ 9 (some 1) =
      .ok ⟨[⟨1, "a", none⟩], [⟨2, "t", "c", none⟩], [⟨2, "t", "c"⟩], 2, 3⟩ ∧
    move_folder ⟨[⟨1, "a", none⟩], [⟨2, "t", "c", none⟩], [⟨2, "t", "c"⟩], 2, 3⟩ 9 none =
      .ok ⟨[⟨1, "a", none⟩], [⟨2, "t", "c", none⟩], [⟨2, "t", "c"⟩], 2, 3⟩ :=
  missing_id_mutations_are_noops _ _ _ _ _ _ (by decide) (by decide) (by decide)


theorem joinWords_cons (w : String) (rest : List String) (h : rest ≠ []) :
    joinWords (w :: rest) = w ++ " " ++ joinWords rest := by
  cases rest with
  | nil => exact absurd rfl h
  | cons r rs => rfl

theorem splitWs_words (lastw : String) :
    ∀ init : List String, (∀ w ∈ init, WordStr w) → WordStr lastw →
      splitWsAux ((joinWords (init ++ [lastw])).data ++ [Char.ofNat 42]) [] =
        init.map String.data ++ [lastw.data ++ [Char.ofNat 42]] := by
  intro init
  induction init with
  | nil =>
    intro _ hlast
    simpa [joinWords] using splitWs_single_star hlast
  | cons w ws ih =>
    intro hinit hlast
    have hw : WordStr w := hinit w (List.mem_cons_self w ws)
    have hjoin : joinWords (w :: (ws ++ [lastw])) = w ++ " " ++ joinWords (ws ++ [lastw]) :=
      joinWords_cons w (ws ++ [lastw]) (by simp)
    rw [List.cons_append, hjoin]
    have hdata : (w ++ " " ++ joinWords (ws ++ [lastw])).data ++ [Char.ofNat 42] =
        w.data ++ (' ' :: ((joinWords (ws ++ [lastw])).data ++ [Char.ofNat 42])) := by
      simp [String.data_append]
    rw [hdata, splitWsAux_chunk (word_all_not_ws hw)]
    rw [splitWsAux_ws_cons (by decide)]
    have hne : w.data.reverse ++ [] ≠ [] := by
      simp
      exact hw.1
    rw [if_neg hne]
    rw [ih (fun x hx => hinit x (List.mem_cons_of_mem w hx)) hlast]
    simp

theorem parse_chunks_words (lastw : String) :
    ∀ init : List String, (∀ w ∈ init, PlainWord w) → PlainWord lastw →
      List.mapM parseChunk (init.map String.data ++ [lastw.data ++ [Char.ofNat 42]]) =
        some ((init.map (fun w => FtsTerm.word (foldAscii w)) ++
          [FtsTerm.star (foldAscii lastw)]).map FtsChunk.term) := by
  intro init
  induction init with
  | nil =>
    intro _ hlast
    have h : (Char.ofNat 42) = '*' := by decide
    rw [h]
    have hchunk := parseChunk_star hlast.1.1 hlast.1.2 hlast.2
    rw [mk_data_eq lastw] at hchunk
    simp only [List.map_nil, List.nil_append, List.mapM_cons, List.mapM_nil, hchunk,
      List.map_cons]
    rfl
  | cons w ws ih =>
    intro hinit hlast
    have hw : PlainWord w := hinit w (List.mem_cons_self w ws)
    have hchunk := parseChunk_word hw.1.1 hw.1.2 hw.2
    rw [mk_data_eq w] at hchunk
    simp only [List.map_cons, List.cons_append, List.mapM_cons, hchunk,
      ih (fun x hx => hinit x (List.mem_cons_of_mem w hx)) hlast]
    rfl

theorem parse_join (init : List String) (lastw : String)
    (hinit : ∀ w ∈ init, PlainWord w) (hlast : PlainWord lastw) :
    parseFtsQuery (joinWords (init ++ [lastw]) ++ "*") =
      some (init.map (fun w => FtsTerm.word (foldAscii w)) ++
        [FtsTerm.star (foldAscii lastw)]) := by
  have hdata : (joinWords (init ++ [lastw]) ++ "*").data =
      (joinWords (init ++ [lastw])).data ++ [Char.ofNat 42] := by
    simp [String.data_append]
  apply parseFtsQuery_of_chunks
  · simp
  · rw [hdata, splitWs_words lastw init (fun w hw => (hinit w hw).1) hlast.1]
    exact parse_chunks_words lastw init hinit hlast

theorem joinWords_not_all_ws (init : List String) (lastw : String)
    (hinit : ∀ w ∈ init, WordStr w) (hlast : WordStr lastw) :
    (joinWords (init ++ [lastw])).data.all isWs = false := by
  cases init with
  | nil =>
    simpa [joinWords] using all_ws_false_of_word hlast
  | cons w ws =>
    have hw : WordStr w := hinit w (List.mem_cons_self w ws)
    rw [List.cons_append,
      joinWords_cons w (ws ++ [lastw]) (by simp)]
    simp only [String.data_append, List.all_append, Bool.and_eq_false_iff]
    exact Or.inl (Or.inl (all_ws_false_of_word hw))


/-- C6 amended: the code appends a single `*` to the whole query string, so
only the FINAL term of a multi-term query receives the implicit wildcard.
For a query of plain bareword terms (not the reserved operator keywords),
every returned note is backed by an index entry whose case-folded tokens
contain each earlier term exactly (no wildcard, matched case-insensitively)
and have the final term as the start of some token; at most `limit` results
are returned. -/
theorem search_notes_wildcards_last_term_only (s : Store) (init : List String)
    (lastw : String) (limit : Nat)
    (hinit : ∀ w ∈ init, PlainWord w) (hlast : PlainWord lastw) :
    ∃ rs, search_notes s (joinWords (init ++ [lastw])) limit = .ok rs ∧
      rs.length ≤ limit ∧
      ∀ r ∈ rs, r ∈ s.notes ∧ ∃ e ∈ s.fts, e.rowid = r.id ∧
        (∀ w ∈ init, (tokenize e.title ++ tokenize e.content).contains
          (foldAscii w) = true) ∧
        (tokenize e.title ++ tokenize e.content).any
          (fun t => (foldAscii lastw).data.isPrefixOf t.data) = true := by
  have hws := joinWords_not_all_ws init lastw (fun w hw => (hinit w hw).1) hlast.1
  have hparse := parse_join init lastw hinit hlast
  unfold search_notes
  rw [hws]
  simp only [Bool.false_eq_true, if_false]
  rw [hparse]
  refine ⟨_, rfl, ?_, ?_⟩
  · rw [List.length_take]
    exact min_le_left _ _
  · intro r hr
    have hr' := List.take_subset _ _ hr
    obtain ⟨e, hehits, hfind⟩ := List.mem_filterMap.mp hr'
    obtain ⟨hefts, hematch⟩ := List.mem_filter.mp hehits
    have hrmem : r ∈ s.notes := List.mem_of_find?_eq_some hfind
    have hrid : r.id = e.rowid := by
      have h := List.find?_some hfind
      simpa using h
    have hall := List.all_eq_true.mp hematch
    refine ⟨hrmem, e, hefts, hrid.symm, ?_, ?_⟩
    · intro w hw
      have := hall (.word (foldAscii w))
        (List.mem_append_left _ (List.mem_map_of_mem _ hw))
      simpa [termMatches] using this
    · have := hall (.star (foldAscii lastw)) (List.mem_append_right _ (by simp))
      simpa [termMatches] using this

/-- C6 witness: a two-term query "foo bar" for which the characterization is
instantiated at a concrete store. -/
theorem search_notes_wildcards_last_term_only_witness :
    ∃ rs, search_notes ⟨[], [⟨1, "x", "food bar", none⟩], [⟨1, "x", "food bar"⟩], 1, 2⟩
        (joinWords (["foo"] ++ ["bar"])) 50 = .ok rs ∧
      rs.length ≤ 50 ∧
      ∀ r ∈ rs, r ∈ [(⟨1, "x", "food bar", none⟩ : Note)] ∧
        ∃ e ∈ [(⟨1, "x", "food bar"⟩ : FtsEntry)], e.rowid = r.id ∧
        (∀ w ∈ ["foo"], (tokenize e.title ++ tokenize e.content).contains
          (foldAscii w) = true) ∧
        (tokenize e.title ++ tokenize e.content).any
          (fun t => (foldAscii "bar").data.isPrefixOf t.data) = true :=
  search_notes_wildcards_last_term_only
    ⟨[], [⟨1, "x", "food bar", none⟩], [⟨1, "x", "food bar"⟩], 1, 2⟩
    ["foo"] "bar" 50 (by decide) (by decide)

/-- C6 counterexample: in a store holding one note with content "food bar",
each term of the query "foo bar" is a prefix of some word of the content
("foo" of "food", "bar" of "bar"), so the claim says the note matches; the
code builds the MATCH text "foo bar*", the unstarred first term "foo"
matches no whole word, and the search returns nothing — while the single
term "foo" alone (becoming "foo*") does return the note. -/
theorem search_notes_not_all_terms_wildcarded :
    "foo".data.isPrefixOf "food".data = true ∧
    "bar".data.isPrefixOf "bar".data = true ∧
    tokenize "food bar" = ["food", "bar"] ∧
    search_notes ⟨[], [⟨1, "x", "food bar", none⟩], [⟨1, "x", "food bar"⟩], 1, 2⟩
      "foo bar" 50 = .ok [] ∧
    search_notes ⟨[], [⟨1, "x", "food bar", none⟩], [⟨1, "x", "food bar"⟩], 1, 2⟩
      "foo" 50 = .ok [⟨1, "x", "food bar", none⟩] := by
  refine ⟨by decide, by decide, by decide, by decide, by decide⟩


theorem rowMatches_star (p : String) (e : FtsEntry) :
    rowMatches [.star p] e =
      (tokenize e.title ++ tokenize e.content).any (fun t => p.data.isPrefixOf t.data) := by
  simp [rowMatches, termMatches]

theorem search_eval (s : Store) (p : String) (limit : Nat) (hw : WordStr p)
    (hkw : isFtsKeyword p.data = false) :
    search_notes s p limit = .ok
      (((s.fts.filter (fun e => rowMatches [.star (foldAscii p)] e)).filterMap
        (fun e => s.notes.find? (fun n => n.id == e.rowid))).take limit) := by
  unfold search_notes
  rw [all_ws_false_of_word hw]
  simp only [Bool.false_eq_true, if_false]
  rw [parse_single_star hw hkw]

theorem find?_append_of_none {α : Type} (p : α → Bool) (l1 l2 : List α)
    (h : ∀ x ∈ l1, p x = false) : (l1 ++ l2).find? p = l2.find? p := by
  rw [List.find?_append, List.find?_eq_none.mpr (by intro x hx; simp [h x hx])]
  rfl

theorem map_eq_self_of_id {α : Type} (f : α → α) (l : List α)
    (h : ∀ a ∈ l, f a = a) : l.map f = l := by
  conv_rhs => rw [← List.map_id l]
  exact List.map_congr_left h

/-- A search for a bareword whose tokens-with-that-start appear in a freshly
appended index entry returns the corresponding freshly appended note. -/
theorem search_finds_appended (base : List FtsEntry) (notes0 : List Note)
    (s : Store) (N : Note) (p : String) (limit : Nat)
    (hw : WordStr p) (hkw : isFtsKeyword p.data = false)
    (hsfts : s.fts = base ++ [⟨N.id, N.title, N.content⟩])
    (hsnotes : s.notes = notes0 ++ [N])
    (hfresh : ∀ n ∈ notes0, n.id ≠ N.id)
    (hlim : base.length < limit)
    (hmatch : (tokenize N.title ++ tokenize N.content).any
      (fun t => (foldAscii p).data.isPrefixOf t.data) = true) :
    ∃ rs, search_notes s p limit = .ok rs ∧ N ∈ rs := by
  rw [search_eval _ _ _ hw hkw]
  refine ⟨_, rfl, ?_⟩
  rw [hsfts, hsnotes]
  have hE : rowMatches [.star (foldAscii p)] ⟨N.id, N.title, N.content⟩ = true := by
    rw [rowMatches_star]
    exact hmatch
  rw [List.filter_append]
  have hfE : List.filter (fun e => rowMatches [.star (foldAscii p)] e)
      [(⟨N.id, N.title, N.content⟩ : FtsEntry)] = [⟨N.id, N.title, N.content⟩] := by
    simp [hE]
  rw [hfE, List.filterMap_append]
  have hfind : (notes0 ++ [N]).find? (fun n => n.id == N.id) = some N := by
    rw [find?_append_of_none _ _ _ (by
      intro n hn
      simpa using hfresh n hn)]
    simp
  have hlast : List.filterMap (fun e => (notes0 ++ [N]).find? (fun n => n.id == e.rowid))
      [(⟨N.id, N.title, N.content⟩ : FtsEntry)] = [N] := by
    simp only [List.filterMap_cons, List.filterMap_nil]
    rw [hfind]
  rw [hlast]
  have hlen : (List.filterMap (fun e => (notes0 ++ [N]).find? (fun n => n.id == e.rowid))
      (base.filter (fun e => rowMatches [.star (foldAscii p)] e)) ++ [N]).length ≤ limit := by
    rw [List.length_append]
    have h1 := List.length_filterMap_le
      (fun e => (notes0 ++ [N]).find? (fun n => n.id == e.rowid))
      (base.filter (fun e => rowMatches [.star (foldAscii p)] e))
    have h2 := List.length_filter_le (fun e => rowMatches [.star (foldAscii p)] e) base
    simp only [List.length_cons, List.length_nil]
    omega
  rw [List.take_of_length_le hlen]
  exact List.mem_append_right _ (by simp)

/-- If every note row carries an id other than `i`, no search result can
have id `i`. -/
theorem search_excludes_by_notes (s : Store) (p : String) (limit i : Nat)
    (hw : WordStr p) (hkw : isFtsKeyword p.data = false)
    (hnotes : ∀ n ∈ s.notes, n.id ≠ i) :
    ∃ rs, search_notes s p limit = .ok rs ∧ ∀ r ∈ rs, r.id ≠ i := by
  rw [search_eval _ _ _ hw hkw]
  refine ⟨_, rfl, ?_⟩
  intro r hr
  have hr' := List.take_subset _ _ hr
  obtain ⟨e, _, hfind⟩ := List.mem_filterMap.mp hr'
  exact hnotes r (List.mem_of_find?_eq_some hfind)

/-- If the only index entries with rowid `i` do not match the query term, no
search result can have id `i`. -/
theorem search_excludes_unmatched (s : Store) (p : String) (limit i : Nat)
    (hw : WordStr p) (hkw : isFtsKeyword p.data = false)
    (hfts : ∀ e ∈ s.fts, e.rowid = i →
      (tokenize e.title ++ tokenize e.content).any
        (fun t => (foldAscii p).data.isPrefixOf t.data) = false) :
    ∃ rs, search_notes s p limit = .ok rs ∧ ∀ r ∈ rs, r.id ≠ i := by
  rw [search_eval _ _ _ hw hkw]
  refine ⟨_, rfl, ?_⟩
  intro r hr hri
  have hr' := List.take_subset _ _ hr
  obtain ⟨e, hehits, hfind⟩ := List.mem_filterMap.mp hr'
  obtain ⟨hefts, hematch⟩ := List.mem_filter.mp hehits
  have hrid : r.id = e.rowid := by
    have h := List.find?_some hfind
    simpa using h
  rw [rowMatches_star] at hematch
  rw [hfts e hefts (by rw [← hrid, hri])] at hematch
  exact Bool.false_ne_true hematch


/-- C1: the trigger-maintained index tracks each note's committed text.
After a successful `create_note`, a search for a bareword that starts some
word of the note's title or content returns that note; after `delete_note`
of that note the same search no longer returns any result with its id; after
`update_note` replacing its content, a bareword starting no word of the new
title/content no longer yields the note while a bareword starting a word of
the new content does.  Matching is case-insensitive: the hypotheses compare
the case-folded query word against the case-folded tokens, as the engine's
`unicode61` tokenizer does, and the query words are plain barewords — not
the reserved operator keywords, on which the engine raises a syntax error.
`hlim` keeps the new note inside the `LIMIT` window and the freshness
hypotheses say the store's rowids are below the AUTOINCREMENT counter, as
every store built by the operations satisfies. -/
theorem search_index_reflects_note_mutations
    (s0 : Store) (title content content2 : String) (fid : Option Nat)
    (p pOld pNew : String) (s1 : Store) (nid : Nat) (limit : Nat)
    (hfreshN : ∀ n ∈ s0.notes, n.id < s0.nextNoteId)
    (hfreshF : ∀ e ∈ s0.fts, e.rowid < s0.nextNoteId)
    (hlim : s0.fts.length < limit)
    (hcreate : create_note s0 title content fid = .ok (s1, nid))
    (hp : PlainWord p)
    (hpMatch : (tokenize title ++ tokenize content).any
      (fun t => (foldAscii p).data.isPrefixOf t.data) = true)
    (hOld : PlainWord pOld)
    (hOldGone : (tokenize title ++ tokenize content2).any
      (fun t => (foldAscii pOld).data.isPrefixOf t.data) = false)
    (hNew : PlainWord pNew)
    (hNewMatch : (tokenize title ++ tokenize content2).any
      (fun t => (foldAscii pNew).data.isPrefixOf t.data) = true) :
    (∃ rs, search_notes s1 p limit = .ok rs ∧
      (⟨nid, title, content, fid⟩ : Note) ∈ rs) ∧
    (∃ rs, search_notes (delete_note s1 nid) p limit = .ok rs ∧
      ∀ r ∈ rs, r.id ≠ nid) ∧
    (∃ s2, update_note s1 ⟨nid, title, content2, fid⟩ = .ok s2 ∧
      (∃ rs, search_notes s2 pNew limit = .ok rs ∧
        (⟨nid, title, content2, fid⟩ : Note) ∈ rs) ∧
      (∃ rs, search_notes s2 pOld limit = .ok rs ∧ ∀ r ∈ rs, r.id ≠ nid)) := by
  unfold create_note at hcreate
  split_ifs at hcreate with h1 h2 h3
  all_goals simp only [Except.ok.injEq, Prod.mk.injEq] at hcreate
  obtain ⟨hs1, hnid⟩ := hcreate
  subst hnid
  subst hs1
  refine ⟨?_, ?_, ?_⟩
  · exact search_finds_appended s0.fts s0.notes _
      (⟨s0.nextNoteId, title, content, fid⟩ : Note)
      p limit hp.1 hp.2 rfl rfl (fun n hn => Nat.ne_of_lt (hfreshN n hn)) hlim hpMatch
  · apply search_excludes_by_notes _ p limit s0.nextNoteId hp.1 hp.2
    intro n hn
    have hn' : n ∈ ((s0.notes ++ [(⟨s0.nextNoteId, title, content, fid⟩ : Note)]).filter
        (fun m => m.id != s0.nextNoteId)) := hn
    have h := (List.mem_filter.mp hn').2
    simpa using h
  · refine ⟨(⟨s0.folders, s0.notes ++ [(⟨s0.nextNoteId, title, content2, fid⟩ : Note)],
      s0.fts ++ [(⟨s0.nextNoteId, title, content2⟩ : FtsEntry)], s0.nextFolderId,
      s0.nextNoteId + 1⟩ : Store), ?_, ?_, ?_⟩
    · unfold update_note
      dsimp only
      have c1 : ((s0.notes ++ [(⟨s0.nextNoteId, title, content, fid⟩ : Note)]).any
          (fun n => n.id == s0.nextNoteId)) = true :=
        List.any_eq_true.mpr ⟨(⟨s0.nextNoteId, title, content, fid⟩ : Note),
          List.mem_append_right _ (by simp), by simp⟩
      rw [c1]
      have c3 : folderRefOk ⟨s0.folders,
          s0.notes ++ [(⟨s0.nextNoteId, title, content, fid⟩ : Note)],
          s0.fts ++ [(⟨s0.nextNoteId, title, content⟩ : FtsEntry)], s0.nextFolderId,
          s0.nextNoteId + 1⟩ fid = folderRefOk s0 fid := rfl
      have c2 : (!folderRefOk s0 fid) = false := by
        simpa using h2
      have h3f : (s0.notes.any (fun o =>
          sameKeyOpt o.folderId fid && o.title == title)) = false :=
        Bool.eq_false_iff.mpr h3
      have c4 : ((s0.notes ++ [(⟨s0.nextNoteId, title, content, fid⟩ : Note)]).any
          (fun o => o.id != s0.nextNoteId &&
            (sameKeyOpt o.folderId fid && o.title == title))) = false := by
        rw [List.any_append]
        apply Bool.or_eq_false_iff.mpr
        constructor
        · rw [List.any_eq_false]
          intro o ho
          have hd := List.any_eq_false.mp h3f o ho
          simp only [Bool.and_eq_true, bne_iff_ne, beq_iff_eq, not_and] at hd ⊢
          tauto
        · simp
      rw [if_neg h1, c3, c2]
      simp only [Bool.false_eq_true, if_false, if_true]
      rw [c4]
      simp only [Bool.false_eq_true, if_false, if_true]
      rw [Except.ok.injEq]
      have hnotes2 : (s0.notes ++ [(⟨s0.nextNoteId, title, content, fid⟩ : Note)]).map
          (fun n => if n.id == s0.nextNoteId then
            { n with title := title, content := content2, folderId := fid }
          else n) = s0.notes ++ [(⟨s0.nextNoteId, title, content2, fid⟩ : Note)] := by
        rw [List.map_append]
        congr 1
        · apply map_eq_self_of_id
          intro o ho
          have hne : (o.id == s0.nextNoteId) = false := by
            simpa using Nat.ne_of_lt (hfreshN o ho)
          simp [hne]
        · simp
      have hfts2 : (s0.fts ++ [(⟨s0.nextNoteId, title, content⟩ : FtsEntry)]).filter
          (fun e => e.rowid != s0.nextNoteId) = s0.fts := by
        rw [List.filter_append]
        have hbase : s0.fts.filter (fun e => e.rowid != s0.nextNoteId) = s0.fts := by
          rw [List.filter_eq_self]
          intro e he
          simpa using Nat.ne_of_lt (hfreshF e he)
        rw [hbase]
        simp
      rw [hnotes2, hfts2]
    · exact search_finds_appended s0.fts s0.notes _
        (⟨s0.nextNoteId, title, content2, fid⟩ : Note) pNew limit hNew.1 hNew.2 rfl rfl
        (fun n hn => Nat.ne_of_lt (hfreshN n hn)) hlim hNewMatch
    · apply search_excludes_unmatched _ pOld limit s0.nextNoteId hOld.1 hOld.2
      intro e he heq
      rcases List.mem_append.mp he with hbase | hnew
      · exact absurd heq (Nat.ne_of_lt (hfreshF e hbase))
      · rw [List.mem_singleton.mp hnew]
        exact hOldGone

/-- C1 witness: the spec's own scenario — create `("Alpha", "beta content")`,
search "bet"; delete and search again; update the content to "gamma words"
and search "bet" and "gam". -/
theorem search_index_reflects_note_mutations_witness :
    (∃ rs, search_notes ⟨[], [⟨1, "Alpha", "beta content", none⟩],
        [⟨1, "Alpha", "beta content"⟩], 1, 2⟩ "bet" 50 = .ok rs ∧
      (⟨1, "Alpha", "beta content", none⟩ : Note) ∈ rs) ∧
    (∃ rs, search_notes (delete_note ⟨[], [⟨1, "Alpha", "beta content", none⟩],
        [⟨1, "Alpha", "beta content"⟩], 1, 2⟩ 1) "bet" 50 = .ok rs ∧
      ∀ r ∈ rs, r.id ≠ 1) ∧
    (∃ s2, update_note ⟨[], [⟨1, "Alpha", "beta content", none⟩],
        [⟨1, "Alpha", "beta content"⟩], 1, 2⟩ ⟨1, "Alpha", "gamma words", none⟩ =
        .ok s2 ∧
      (∃ rs, search_notes s2 "gam" 50 = .ok rs ∧
        (⟨1, "Alpha", "gamma words", none⟩ : Note) ∈ rs) ∧
      (∃ rs, search_notes s2 "bet" 50 = .ok rs ∧ ∀ r ∈ rs, r.id ≠ 1)) :=
  search_index_reflects_note_mutations ⟨[], [], [], 1, 1⟩ "Alpha" "beta content"
    "gamma words" none "bet" "bet" "gam" _ 1 50
    (by decide) (by decide) (by decide) (by decide) (by decide) (by decide)
    (by decide) (by decide) (by decide) (by decide)


theorem optMem_spec {a : Option Nat} {del : List Nat} (h : optMem a del = true) :
    ∃ p, a = some p ∧ p ∈ del := by
  cases a with
  | none => simp [optMem] at h
  | some p =>
    refine ⟨p, rfl, ?_⟩
    simpa [optMem] using h

theorem cascadeStep_subset (folders : List Folder) (del : List Nat) :
    ∀ x ∈ del, x ∈ cascadeStep folders del := by
  intro x hx
  exact List.mem_append_left _ hx

theorem mem_cascadeStep {folders : List Folder} {del : List Nat} {x : Nat}
    (h : x ∈ cascadeStep folders del) :
    x ∈ del ∨ ∃ f ∈ folders, f.id = x ∧ optMem f.parentId del = true := by
  rcases List.mem_append.mp h with hl | hr
  · exact Or.inl hl
  · obtain ⟨f, hf, rfl⟩ := List.mem_map.mp hr
    obtain ⟨hfm, hfc⟩ := List.mem_filter.mp hf
    have hfc' : optMem f.parentId del = true ∧ (!(decide (f.id ∈ del))) = true := by
      simpa [cascadeNew] using hfc
    exact Or.inr ⟨f, hfm, rfl, hfc'.1⟩

theorem cascadeStep_grows (folders : List Folder) (del : List Nat) :
    cascadeStep folders del = del ∨
      ∃ f ∈ folders, f.id ∉ del ∧ f.id ∈ cascadeStep folders del := by
  cases hfil : folders.filter (cascadeNew del) with
  | nil =>
    left
    unfold cascadeStep
    rw [hfil]
    simp
  | cons f fs =>
    right
    have hfmem : f ∈ folders.filter (cascadeNew del) := by
      rw [hfil]
      exact List.mem_cons_self f fs
    obtain ⟨hfm, hfc⟩ := List.mem_filter.mp hfmem
    have hfc' : optMem f.parentId del = true ∧ (!(decide (f.id ∈ del))) = true := by
      simpa [cascadeNew] using hfc
    have hnot : f.id ∉ del := by
      simpa using hfc'.2
    refine ⟨f, hfm, hnot, ?_⟩
    exact List.mem_append_right _ (List.mem_map_of_mem _ hfmem)

theorem cascadeIter_subset (folders : List Folder) :
    ∀ (n : Nat) (del : List Nat), ∀ x ∈ del, x ∈ cascadeIter folders n del := by
  intro n
  induction n with
  | zero => intro del x hx; exact hx
  | succ n ih =>
    intro del x hx
    exact ih (cascadeStep folders del) x (cascadeStep_subset folders del x hx)

theorem cascadeIter_of_fix (folders : List Folder)
    {del : List Nat} (h : cascadeStep folders del = del) :
    ∀ n, cascadeIter folders n del = del := by
  intro n
  induction n with
  | zero => rfl
  | succ n ih =>
    show cascadeIter folders n (cascadeStep folders del) = del
    rw [h]
    exact ih

theorem filter_length_mono {α : Type} (p q : α → Bool) (l : List α)
    (h : ∀ a, p a = true → q a = true) :
    (l.filter p).length ≤ (l.filter q).length := by
  induction l with
  | nil => simp
  | cons a l ih =>
    simp only [List.filter_cons]
    by_cases hpa : p a = true
    · rw [if_pos hpa, if_pos (h a hpa)]
      simpa using ih
    · rw [if_neg hpa]
      by_cases hqa : q a = true
      · rw [if_pos hqa]
        exact le_trans ih (Nat.le_succ _)
      · rw [if_neg hqa]
        exact ih

theorem filter_length_lt (folders : List Folder) (del del' : List Nat)
    (hsub : ∀ x ∈ del, x ∈ del') (f0 : Folder) (hf0 : f0 ∈ folders)
    (hnot : f0.id ∉ del) (hin : f0.id ∈ del') :
    (folders.filter (fun f => !(decide (f.id ∈ del')))).length <
      (folders.filter (fun f => !(decide (f.id ∈ del)))).length := by
  have hmono : ∀ f : Folder,
      (!(decide (f.id ∈ del'))) = true → (!(decide (f.id ∈ del))) = true := by
    intro f hf
    simp only [Bool.not_eq_true', decide_eq_false_iff_not] at hf ⊢
    intro hc
    exact hf (hsub _ hc)
  induction folders with
  | nil => cases hf0
  | cons g gs ih =>
    rcases List.mem_cons.mp hf0 with heq | htail
    · subst heq
      simp only [List.filter_cons]
      rw [if_neg (by simp [hin]), if_pos (by simpa using hnot)]
      have hm := filter_length_mono _ _ gs hmono
      simp only [List.length_cons]
      omega
    · simp only [List.filter_cons]
      have hlt := ih htail
      by_cases h1 : g.id ∈ del
      · have h2 : g.id ∈ del' := hsub _ h1
        rw [if_neg (by simp [h2]), if_neg (by simp [h1])]
        exact hlt
      · by_cases h2 : g.id ∈ del'
        · rw [if_neg (by simp [h2]), if_pos (by simpa using h1)]
          simp only [List.length_cons]
          omega
        · rw [if_pos (by simpa using h2), if_pos (by simpa using h1)]
          simp only [List.length_cons]
          omega

theorem cascadeIter_fix (folders : List Folder) :
    ∀ (n : Nat) (del : List Nat),
      (folders.filter (fun f => !(decide (f.id ∈ del)))).length ≤ n →
      cascadeStep folders (cascadeIter folders n del) = cascadeIter folders n del := by
  intro n
  induction n with
  | zero =>
    intro del hlen
    have hnil : folders.filter (fun f => !(decide (f.id ∈ del))) = [] :=
      List.length_eq_zero.mp (Nat.le_zero.mp hlen)
    have hall : ∀ f ∈ folders, f.id ∈ del := by
      intro f hf
      have := List.filter_eq_nil_iff.mp hnil f hf
      simpa using this
    show cascadeStep folders del = del
    unfold cascadeStep
    have : folders.filter (cascadeNew del) = [] := by
      apply List.filter_eq_nil_iff.mpr
      intro f hf
      simp [cascadeNew, hall f hf]
    rw [this]
    simp
  | succ n ih =>
    intro del hlen
    show cascadeStep folders (cascadeIter folders n (cascadeStep folders del)) =
      cascadeIter folders n (cascadeStep folders del)
    rcases cascadeStep_grows folders del with heq | ⟨f, hf, hnot, hin⟩
    · rw [heq, cascadeIter_of_fix folders heq n, heq]
    · apply ih
      have hlt := filter_length_lt folders del (cascadeStep folders del)
        (cascadeStep_subset folders del) f hf hnot hin
      omega

theorem cascadeClosure_fix (folders : List Folder) (seed : List Nat) :
    cascadeStep folders (cascadeClosure folders seed) = cascadeClosure folders seed :=
  cascadeIter_fix folders folders.length seed
    (List.length_filter_le _ _)

theorem cascadeClosure_subset (folders : List Folder) (seed : List Nat) :
    ∀ x ∈ seed, x ∈ cascadeClosure folders seed :=
  cascadeIter_subset folders folders.length seed

theorem cascadeClosure_sound (folders : List Folder) (root : Nat) (seed : List Nat)
    (hseed : ∀ x ∈ seed, InSubtree folders root x) :
    ∀ x ∈ cascadeClosure folders seed, InSubtree folders root x := by
  suffices h : ∀ (n : Nat) (del : List Nat),
      (∀ x ∈ del, InSubtree folders root x) →
      ∀ x ∈ cascadeIter folders n del, InSubtree folders root x from
    h folders.length seed hseed
  intro n
  induction n with
  | zero => intro del hdel x hx; exact hdel x hx
  | succ n ih =>
    intro del hdel x hx
    apply ih (cascadeStep folders del) _ x hx
    intro y hy
    rcases mem_cascadeStep hy with hl | ⟨f, hfm, rfl, hopt⟩
    · exact hdel y hl
    · obtain ⟨p, hp, hpdel⟩ := optMem_spec hopt
      exact InSubtree.child f p hfm hp (hdel p hpdel)

theorem cascadeClosure_complete (folders : List Folder) (root : Nat) (seed : List Nat)
    (hroot : root ∈ cascadeClosure folders seed) :
    ∀ x, InSubtree folders root x → x ∈ cascadeClosure folders seed := by
  intro x hx
  induction hx with
  | root => exact hroot
  | child f p hfm hp _ ihp =>
    by_cases hfid : f.id ∈ cascadeClosure folders seed
    · exact hfid
    · exfalso
      apply hfid
      have hnew : cascadeNew (cascadeClosure folders seed) f = true := by
        unfold cascadeNew
        rw [hp]
        simp [optMem, ihp, hfid]
      have hmem : f ∈ folders.filter (cascadeNew (cascadeClosure folders seed)) :=
        List.mem_filter.mpr ⟨hfm, hnew⟩
      have : f.id ∈ cascadeStep folders (cascadeClosure folders seed) :=
        List.mem_append_right _ (List.mem_map_of_mem _ hmem)
      rwa [cascadeClosure_fix folders seed] at this


/-- C4: `DELETE FROM folders WHERE id = ? OR parent_id = ?` together with the
`ON DELETE CASCADE` foreign key removes the named folder and its entire
subtree; `ON DELETE SET NULL` detaches (never deletes) every note directly
owned by a removed folder, and notes owned by surviving folders (or by no
folder) are untouched. -/
theorem delete_folder_recursive_removes_subtree_detaches_notes
    (s : Store) (fid : Nat) (hroot : ∃ f ∈ s.folders, f.id = fid) :
    (∀ f ∈ s.folders, InSubtree s.folders fid f.id →
      f ∉ (delete_folder s fid true).folders) ∧
    (∀ f ∈ s.folders, ¬ InSubtree s.folders fid f.id →
      f ∈ (delete_folder s fid true).folders) ∧
    (delete_folder s fid true).notes.length = s.notes.length ∧
    (∀ n ∈ s.notes, ∀ g, n.folderId = some g → InSubtree s.folders fid g →
      ({ n with folderId := none } : Note) ∈ (delete_folder s fid true).notes) ∧
    (∀ n ∈ s.notes, (∀ g, n.folderId = some g → ¬ InSubtree s.folders fid g) →
      n ∈ (delete_folder s fid true).notes) := by
  obtain ⟨f0, hf0, hf0id⟩ := hroot
  have hseed : ∀ x ∈ (s.folders.filter
      (fun f => f.id == fid || f.parentId == some fid)).map (fun f => f.id),
      InSubtree s.folders fid x := by
    intro x hx
    obtain ⟨f, hfmem, rfl⟩ := List.mem_map.mp hx
    obtain ⟨hfm, hfc⟩ := List.mem_filter.mp hfmem
    simp only [Bool.or_eq_true, beq_iff_eq] at hfc
    rcases hfc with h | h
    · rw [h]
      exact InSubtree.root
    · exact InSubtree.child f fid hfm h InSubtree.root
  have hrootmem : fid ∈ (s.folders.filter
      (fun f => f.id == fid || f.parentId == some fid)).map (fun f => f.id) :=
    List.mem_map.mpr ⟨f0, List.mem_filter.mpr ⟨hf0, by simp [hf0id]⟩, hf0id⟩
  have hrootclo := cascadeClosure_subset s.folders _ fid hrootmem
  have hiff : ∀ x, x ∈ cascadeClosure s.folders ((s.folders.filter
      (fun f => f.id == fid || f.parentId == some fid)).map (fun f => f.id)) ↔
      InSubtree s.folders fid x :=
    fun x => ⟨fun h => cascadeClosure_sound _ _ _ hseed x h,
      fun h => cascadeClosure_complete _ _ _ hrootclo x h⟩
  have hfolders : (delete_folder s fid true).folders = s.folders.filter
      (fun f => !(decide (f.id ∈ cascadeClosure s.folders ((s.folders.filter
        (fun f => f.id == fid || f.parentId == some fid)).map (fun f => f.id))))) := rfl
  have hnotes : (delete_folder s fid true).notes = s.notes.map
      (fun n => if optMem n.folderId (cascadeClosure s.folders ((s.folders.filter
          (fun f => f.id == fid || f.parentId == some fid)).map (fun f => f.id))) then
        { n with folderId := none } else n) := rfl
  refine ⟨?_, ?_, ?_, ?_, ?_⟩
  · intro f hf hsub hmem
    rw [hfolders] at hmem
    have hc := (List.mem_filter.mp hmem).2
    simp only [Bool.not_eq_true', decide_eq_false_iff_not] at hc
    exact hc ((hiff f.id).mpr hsub)
  · intro f hf hnsub
    rw [hfolders]
    refine List.mem_filter.mpr ⟨hf, ?_⟩
    simp only [Bool.not_eq_true', decide_eq_false_iff_not]
    intro hc
    exact hnsub ((hiff f.id).mp hc)
  · rw [hnotes, List.length_map]
  · intro n hn g hg hsub
    rw [hnotes]
    refine List.mem_map.mpr ⟨n, hn, ?_⟩
    have hm : optMem n.folderId (cascadeClosure s.folders ((s.folders.filter
        (fun f => f.id == fid || f.parentId == some fid)).map (fun f => f.id))) = true := by
      rw [hg]
      simpa [optMem] using (hiff g).mpr hsub
    simp [hm]
  · intro n hn hng
    rw [hnotes]
    refine List.mem_map.mpr ⟨n, hn, ?_⟩
    have hm : optMem n.folderId (cascadeClosure s.folders ((s.folders.filter
        (fun f => f.id == fid || f.parentId == some fid)).map (fun f => f.id))) = false := by
      cases hnf : n.folderId with
      | none => simp [optMem]
      | some g =>
        simp only [optMem, decide_eq_false_iff_not]
        intro hc
        exact hng g hnf ((hiff g).mp hc)
    simp [hm]

/-- C4 witness: folders 1 ← 2 (child) plus unrelated folder 4, a note in
folder 1 and a note in folder 4; recursive deletion of folder 1. -/
theorem delete_folder_recursive_removes_subtree_detaches_notes_witness :
    (∀ f ∈ (⟨[⟨1, "a", none⟩, ⟨2, "b", some 1⟩, ⟨4, "z", none⟩],
        [⟨7, "t", "c", some 1⟩, ⟨8, "u", "d", some 4⟩], [], 5, 9⟩ : Store).folders,
      InSubtree [⟨1, "a", none⟩, ⟨2, "b", some 1⟩, ⟨4, "z", none⟩] 1 f.id →
      f ∉ (delete_folder ⟨[⟨1, "a", none⟩, ⟨2, "b", some 1⟩, ⟨4, "z", none⟩],
        [⟨7, "t", "c", some 1⟩, ⟨8, "u", "d", some 4⟩], [], 5, 9⟩ 1 true).folders) ∧
    (∀ f ∈ (⟨[⟨1, "a", none⟩, ⟨2, "b", some 1⟩, ⟨4, "z", none⟩],
        [⟨7, "t", "c", some 1⟩, ⟨8, "u", "d", some 4⟩], [], 5, 9⟩ : Store).folders,
      ¬ InSubtree [⟨1, "a", none⟩, ⟨2, "b", some 1⟩, ⟨4, "z", none⟩] 1 f.id →
      f ∈ (delete_folder ⟨[⟨1, "a", none⟩, ⟨2, "b", some 1⟩, ⟨4, "z", none⟩],
        [⟨7, "t", "c", some 1⟩, ⟨8, "u", "d", some 4⟩], [], 5, 9⟩ 1 true).folders) ∧
    (delete_folder ⟨[⟨1, "a", none⟩, ⟨2, "b", some 1⟩, ⟨4, "z", none⟩],
      [⟨7, "t", "c", some 1⟩, ⟨8, "u", "d", some 4⟩], [], 5, 9⟩ 1 true).notes.length =
      (⟨[⟨1, "a", none⟩, ⟨2, "b", some 1⟩, ⟨4, "z", none⟩],
        [⟨7, "t", "c", some 1⟩, ⟨8, "u", "d", some 4⟩], [], 5, 9⟩ : Store).notes.length ∧
    (∀ n ∈ (⟨[⟨1, "a", none⟩, ⟨2, "b", some 1⟩, ⟨4, "z", none⟩],
        [⟨7, "t", "c", some 1⟩, ⟨8, "u", "d", some 4⟩], [], 5, 9⟩ : Store).notes,
      ∀ g, n.folderId = some g →
      InSubtree [⟨1, "a", none⟩, ⟨2, "b", some 1⟩, ⟨4, "z", none⟩] 1 g →
      ({ n with folderId := none } : Note) ∈
        (delete_folder ⟨[⟨1, "a", none⟩, ⟨2, "b", some 1⟩, ⟨4, "z", none⟩],
          [⟨7, "t", "c", some 1⟩, ⟨8, "u", "d", some 4⟩], [], 5, 9⟩ 1 true).notes) ∧
    (∀ n ∈ (⟨[⟨1, "a", none⟩, ⟨2, "b", some 1⟩, ⟨4, "z", none⟩],
        [⟨7, "t", "c", some 1⟩, ⟨8, "u", "d", some 4⟩], [], 5, 9⟩ : Store).notes,
      (∀ g, n.folderId = some g →
        ¬ InSubtree [⟨1, "a", none⟩, ⟨2, "b", some 1⟩, ⟨4, "z", none⟩] 1 g) →
      n ∈ (delete_folder ⟨[⟨1, "a", none⟩, ⟨2, "b", some 1⟩, ⟨4, "z", none⟩],
        [⟨7, "t", "c", some 1⟩, ⟨8, "u", "d", some 4⟩], [], 5, 9⟩ 1 true).notes) :=
  delete_folder_recursive_removes_subtree_detaches_notes
    ⟨[⟨1, "a", none⟩, ⟨2, "b", some 1⟩, ⟨4, "z", none⟩],
      [⟨7, "t", "c", some 1⟩, ⟨8, "u", "d", some 4⟩], [], 5, 9⟩ 1
    ⟨⟨1, "a", none⟩, by decide, rfl⟩

/-- C7 amended: with `PRAGMA foreign_keys = ON`, the `ON DELETE CASCADE`
constraint applies even when `recursive=false`: deleting only the named
folder's row still removes every descendant folder; exactly the folders
outside the named folder's subtree survive unchanged. -/
theorem delete_folder_nonrecursive_still_cascades (s : Store) (fid : Nat)
    (hroot : ∃ f ∈ s.folders, f.id = fid) :
    (∀ f ∈ s.folders, InSubtree s.folders fid f.id →
      f ∉ (delete_folder s fid false).folders) ∧
    (∀ f ∈ s.folders, ¬ InSubtree s.folders fid f.id →
      f ∈ (delete_folder s fid false).folders) := by
  obtain ⟨f0, hf0, hf0id⟩ := hroot
  have hseed : ∀ x ∈ (s.folders.filter (fun f => f.id == fid)).map (fun f => f.id),
      InSubtree s.folders fid x := by
    intro x hx
    obtain ⟨f, hfmem, rfl⟩ := List.mem_map.mp hx
    obtain ⟨hfm, hfc⟩ := List.mem_filter.mp hfmem
    simp only [beq_iff_eq] at hfc
    rw [hfc]
    exact InSubtree.root
  have hrootmem : fid ∈ (s.folders.filter (fun f => f.id == fid)).map (fun f => f.id) :=
    List.mem_map.mpr ⟨f0, List.mem_filter.mpr ⟨hf0, by simp [hf0id]⟩, hf0id⟩
  have hrootclo := cascadeClosure_subset s.folders _ fid hrootmem
  have hiff : ∀ x, x ∈ cascadeClosure s.folders
      ((s.folders.filter (fun f => f.id == fid)).map (fun f => f.id)) ↔
      InSubtree s.folders fid x :=
    fun x => ⟨fun h => cascadeClosure_sound _ _ _ hseed x h,
      fun h => cascadeClosure_complete _ _ _ hrootclo x h⟩
  have hfolders : (delete_folder s fid false).folders = s.folders.filter
      (fun f => !(decide (f.id ∈ cascadeClosure s.folders
        ((s.folders.filter (fun f => f.id == fid)).map (fun f => f.id))))) := rfl
  constructor
  · intro f hf hsub hmem
    rw [hfolders] at hmem
    have hc := (List.mem_filter.mp hmem).2
    simp only [Bool.not_eq_true', decide_eq_false_iff_not] at hc
    exact hc ((hiff f.id).mpr hsub)
  · intro f hf hnsub
    rw [hfolders]
    refine List.mem_filter.mpr ⟨hf, ?_⟩
    simp only [Bool.not_eq_true', decide_eq_false_iff_not]
    intro hc
    exact hnsub ((hiff f.id).mp hc)

/-- C7 witness: folders 1 ← 2 ← 3 plus unrelated folder 4; non-recursive
deletion of folder 1. -/
theorem delete_folder_nonrecursive_still_cascades_witness :
    (∀ f ∈ (⟨[⟨1, "a", none⟩, ⟨2, "b", some 1⟩, ⟨3, "c", some 2⟩, ⟨4, "z", none⟩],
        [], [], 5, 1⟩ : Store).folders,
      InSubtree [⟨1, "a", none⟩, ⟨2, "b", some 1⟩, ⟨3, "c", some 2⟩, ⟨4, "z", none⟩] 1 f.id →
      f ∉ (delete_folder ⟨[⟨1, "a", none⟩, ⟨2, "b", some 1⟩, ⟨3, "c", some 2⟩,
        ⟨4, "z", none⟩], [], [], 5, 1⟩ 1 false).folders) ∧
    (∀ f ∈ (⟨[⟨1, "a", none⟩, ⟨2, "b", some 1⟩, ⟨3, "c", some 2⟩, ⟨4, "z", none⟩],
        [], [], 5, 1⟩ : Store).folders,
      ¬ InSubtree [⟨1, "a", none⟩, ⟨2, "b", some 1⟩, ⟨3, "c", some 2⟩, ⟨4, "z", none⟩] 1 f.id →
      f ∈ (delete_folder ⟨[⟨1, "a", none⟩, ⟨2, "b", some 1⟩, ⟨3, "c", some 2⟩,
        ⟨4, "z", none⟩], [], [], 5, 1⟩ 1 false).folders) :=
  delete_folder_nonrecursive_still_cascades
    ⟨[⟨1, "a", none⟩, ⟨2, "b", some 1⟩, ⟨3, "c", some 2⟩, ⟨4, "z", none⟩], [], [], 5, 1⟩ 1
    ⟨⟨1, "a", none⟩, by decide, rfl⟩

/-- C7 counterexample: folder 2 is a child of folder 1; `delete_folder 1`
with `recursive=false` issues `DELETE FROM folders WHERE id = 1`, but the
foreign-key cascade deletes folder 2 as well, leaving no folders — the
claim said every other folder row, including the children, survives. -/
theorem delete_folder_nonrecursive_deletes_children :
    (⟨2, "b", some 1⟩ : Folder) ∈
      (⟨[⟨1, "a", none⟩, ⟨2, "b", some 1⟩], [], [], 3, 1⟩ : Store).folders ∧
    (delete_folder ⟨[⟨1, "a", none⟩, ⟨2, "b", some 1⟩], [], [], 3, 1⟩ 1 false).folders =
      [] := by
  refine ⟨by decide, by decide⟩


theorem folderFkOk_spec {s : Store} (h : folderFkOk s = true) :
    ∀ f ∈ s.folders, ∀ p, f.parentId = some p → ∃ g ∈ s.folders, g.id = p := by
  intro f hf p hp
  have hall := List.all_eq_true.mp h f hf
  rw [hp] at hall
  simp only [Option.elim] at hall
  obtain ⟨g, hg, hgid⟩ := List.any_eq_true.mp hall
  exact ⟨g, hg, by simpa using hgid⟩

theorem noteFkOk_spec {s : Store} (h : noteFkOk s = true) :
    ∀ m ∈ s.notes, ∀ p, m.folderId = some p → ∃ g ∈ s.folders, g.id = p := by
  intro m hm p hp
  have hall := List.all_eq_true.mp h m hm
  rw [hp] at hall
  simp only [Option.elim] at hall
  obtain ⟨g, hg, hgid⟩ := List.any_eq_true.mp hall
  exact ⟨g, hg, by simpa using hgid⟩

theorem folderIdsNonzero_spec {s : Store} (h : folderIdsNonzero s = true) :
    ∀ f ∈ s.folders, f.id ≠ 0 := by
  intro f hf
  have := List.all_eq_true.mp h f hf
  simpa using this

theorem rankOk_spec {s : Store} {rank : Nat → Nat} (h : rankOk s rank = true) :
    ∀ f ∈ s.folders, ∀ p, f.parentId = some p → rank p < rank f.id := by
  intro f hf p hp
  have hall := List.all_eq_true.mp h f hf
  rw [hp] at hall
  simpa using hall

theorem rankBounded_spec {s : Store} {rank : Nat → Nat} (h : rankBounded s rank = true) :
    ∀ f ∈ s.folders, rank f.id ≤ s.folders.length := by
  intro f hf
  have := List.all_eq_true.mp h f hf
  simpa using this

theorem get_note_parentsAux_spec (s : Store) (rank : Nat → Nat)
    (hfk : ∀ f ∈ s.folders, ∀ p, f.parentId = some p → ∃ g ∈ s.folders, g.id = p)
    (hrank : ∀ f ∈ s.folders, ∀ p, f.parentId = some p → rank p < rank f.id)
    (hid : ∀ f ∈ s.folders, f.id ≠ 0) :
    ∀ (fuel : Nat) (start : Option Nat),
      (start = none ∨ ∃ f ∈ s.folders, start = some f.id ∧ rank f.id < fuel) →
      ∃ l, get_note_parentsAux s fuel start = some l ∧ IsParentChain s start l := by
  intro fuel
  induction fuel with
  | zero =>
    intro start hstart
    rcases hstart with rfl | ⟨f, hf, rfl, hrk⟩
    · exact ⟨[], rfl, IsParentChain.nil⟩
    · omega
  | succ fuel ih =>
    intro start hstart
    rcases hstart with rfl | ⟨f, hf, rfl, hrk⟩
    · exact ⟨[], rfl, IsParentChain.nil⟩
    · have hfid0 : f.id ≠ 0 := hid f hf
      have hfind : ∃ g, get_folder s f.id = some g := by
        unfold get_folder
        cases hfq : s.folders.find? (fun x => x.id == f.id) with
        | some g => exact ⟨g, rfl⟩
        | none =>
          exfalso
          have := List.find?_eq_none.mp hfq f hf
          simp at this
      obtain ⟨g, hg⟩ := hfind
      have hgmem : g ∈ s.folders := List.mem_of_find?_eq_some hg
      have hgid : g.id = f.id := by
        have := List.find?_some hg
        simpa using this
      have hstart' : g.parentId = none ∨
          ∃ a ∈ s.folders, g.parentId = some a.id ∧ rank a.id < fuel := by
        cases hgp : g.parentId with
        | none => exact Or.inl rfl
        | some q =>
          right
          obtain ⟨a, ha, haid⟩ := hfk g hgmem q hgp
          have h1 : rank q < rank g.id := hrank g hgmem q hgp
          rw [hgid] at h1
          refine ⟨a, ha, by rw [haid], ?_⟩
          rw [haid]
          omega
      obtain ⟨l, hl, hchain⟩ := ih g.parentId hstart'
      refine ⟨f.id :: l, ?_, IsParentChain.cons f.id g l hg hchain⟩
      show get_note_parentsAux s (fuel + 1) (some f.id) = some (f.id :: l)
      unfold get_note_parentsAux
      rw [if_neg hfid0, hg]
      show Option.map (fun x => f.id :: x) (get_note_parentsAux s fuel g.parentId) =
        some (f.id :: l)
      rw [hl]
      rfl

/-- C9: on a store with referential integrity, nonzero folder ids, and an
acyclic folder-parent relation (witnessed by a bounded ranking certificate),
`get_note_parents` of an existing note terminates within its
`folders.length + 1` step budget and returns exactly the breadcrumb chain:
the note's folder followed by each successive ancestor, ending at a folder
with no parent; an unassigned note yields the empty chain. -/
theorem get_note_parents_terminates_with_chain (s : Store) (noteId : Nat)
    (n : Note) (rank : Nat → Nat)
    (hnote : get_note s noteId = some n)
    (hffk : folderFkOk s = true)
    (hnfk : noteFkOk s = true)
    (hid0 : folderIdsNonzero s = true)
    (hrk : rankOk s rank = true)
    (hrb : rankBounded s rank = true) :
    ∃ l, get_note_parents s noteId = some l ∧ IsParentChain s n.folderId l := by
  have hnmem : n ∈ s.notes := List.mem_of_find?_eq_some hnote
  have hstart : n.folderId = none ∨ ∃ f ∈ s.folders, n.folderId = some f.id ∧
      rank f.id < s.folders.length + 1 := by
    cases hnf : n.folderId with
    | none => exact Or.inl rfl
    | some q =>
      right
      obtain ⟨g, hg, hgid⟩ := noteFkOk_spec hnfk n hnmem q hnf
      have := rankBounded_spec hrb g hg
      exact ⟨g, hg, by rw [hgid], by omega⟩
  obtain ⟨l, hl, hchain⟩ := get_note_parentsAux_spec s rank (folderFkOk_spec hffk)
    (rankOk_spec hrk) (folderIdsNonzero_spec hid0) (s.folders.length + 1)
    n.folderId hstart
  refine ⟨l, ?_, hchain⟩
  unfold get_note_parents
  rw [hnote]
  exact hl

/-- C9 witness: folders 1 ← 2, note 7 in folder 2, ranked by depth; the
chain is [2, 1]. -/
theorem get_note_parents_terminates_with_chain_witness :
    ∃ l, get_note_parents ⟨[⟨1, "a", none⟩, ⟨2, "b", some 1⟩],
        [⟨7, "t", "c", some 2⟩], [], 3, 8⟩ 7 = some l ∧
      IsParentChain ⟨[⟨1, "a", none⟩, ⟨2, "b", some 1⟩],
        [⟨7, "t", "c", some 2⟩], [], 3, 8⟩
        (Note.folderId ⟨7, "t", "c", some 2⟩) l :=
  get_note_parents_terminates_with_chain
    ⟨[⟨1, "a", none⟩, ⟨2, "b", some 1⟩], [⟨7, "t", "c", some 2⟩], [], 3, 8⟩ 7
    ⟨7, "t", "c", some 2⟩ (fun k => k - 1)
    (by decide) (by decide) (by decide) (by decide) (by decide) (by decide)

end KVault
